import Mathlib

/-!
Verification of the UNDERTALE save-data manager (`src/save-manager.py`).

The program is a filesystem CRUD tool.  We embed it shallowly:

* a directory is a finite assignment of file names to byte contents
  (`Dir := String → Option Content`);
* `copy_save_files` (FileSetCopier), `clear_directory` (DirectoryStager),
  `get_backup_list` (BackupCatalog), `_parse_selection` (SelectionParser)
  and the `create_backup` / `restore_backup` workflows are translated
  function by function from the Python source;
* interactive prompts are modelled by passing the scripted user inputs as
  explicit arguments; per-file I/O errors are modelled by a failure oracle
  `fail : FileName → Bool` (`shutil.copy2` raising `IOError` on that file).
-/

abbrev FileName := String

abbrev Content := List Nat

/-- A directory: which files exist in it and their byte contents. -/
abbrev Dir := FileName → Option Content

/-- The fixed save-file set, from `self.save_files` (line 34 of the source). -/
def save_files : List FileName :=
  ["file0", "file8", "file9", "undertale.ini", "config.ini"]

/-- Writing one file into a directory. -/
def updateDir (d : Dir) (fn : FileName) (c : Content) : Dir :=
  fun x => if x = fn then some c else d x

/-- The empty directory (freshly created by `mkdir`). -/
def emptyDir : Dir := fun _ => none

/-- Build a concrete directory from an association list (for concrete runs). -/
def dirOf (l : List (FileName × Content)) : Dir :=
  fun fn => (l.find? (fun p => p.1 == fn)).map (fun p => p.2)

/-- The oracle for runs in which no `shutil.copy2` call raises `IOError`. -/
def noFail : FileName → Bool := fun _ => false

/-- The per-file copy loop of `copy_save_files` (source lines 144-158),
generalized over the list of file names so that we can induct on it.
For each name: a file missing from the source is skipped; a file on which
the copy raises `IOError` (oracle `f`) leaves the destination unchanged and
is not counted; otherwise the file is written and the counter incremented.
The loop never aborts early. -/
def copyList (f : FileName → Bool) (s : Dir) : List FileName → Dir × Nat → Dir × Nat
  | [], acc => acc
  | fn :: rest, (d, c) =>
      match s fn with
      | none => copyList f s rest (d, c)
      | some v =>
          if f fn then copyList f s rest (d, c)
          else copyList f s rest (updateDir d fn v, c + 1)

/-- Function `copy_save_files` (source lines 136-158): copy every file of
`save_files` that exists in the source directory into the destination
directory, returning the updated destination and the count of files
successfully copied. -/
def copy_save_files (f : FileName → Bool) (src dst : Dir) : Dir × Nat :=
  copyList f src save_files (dst, 0)

/-- Python `str.strip()`: drop leading and trailing whitespace. -/
def pyStrip (cs : List Char) : List Char :=
  ((cs.dropWhile Char.isWhitespace).reverse.dropWhile Char.isWhitespace).reverse

/-- Python `str.lower()` (ASCII case folding, all this program needs). -/
def pyLower (cs : List Char) : List Char :=
  cs.map Char.toLower

/-- Python `str.split(sep)` with a one-character separator: split at every
occurrence, keeping empty pieces (so the result is never empty). -/
def splitOnChar (sep : Char) : List Char → List (List Char)
  | [] => [[]]
  | c :: cs =>
      if c = sep then [] :: splitOnChar sep cs
      else
        match splitOnChar sep cs with
        | [] => [[c]]
        | g :: gs => (c :: g) :: gs

/-- Python `str.split(sep, 1)`: split at the first occurrence only;
`none` when the separator does not occur (so `some` is exactly the
`sep in part` test of line 450). -/
def splitFirst (sep : Char) : List Char → Option (List Char × List Char)
  | [] => none
  | c :: cs =>
      if c = sep then some ([], cs)
      else (splitFirst sep cs).map (fun p => (c :: p.1, p.2))

/-- The digits of a Python integer literal: one or more ASCII digits. -/
def digitsToNat? (cs : List Char) : Option Nat :=
  if cs.isEmpty then none
  else if cs.all (fun c => c.isDigit) then
    some (cs.foldl (fun a c => a * 10 + (c.toNat - 48)) 0)
  else none

/-- Model of Python `int(s)`: surrounding whitespace stripped, optional
sign, then ASCII digits; anything else raises `ValueError`, modelled as
`none`. -/
def pyInt? (cs0 : List Char) : Option Int :=
  match pyStrip cs0 with
  | [] => none
  | c :: cs =>
      if c = '-' then (digitsToNat? cs).map (fun n => -(n : Int))
      else if c = '+' then (digitsToNat? cs).map (fun n => (n : Int))
      else (digitsToNat? (c :: cs)).map (fun n => (n : Int))

/-- One token of `_parse_selection` (source lines 448-461): the token is
stripped; if it contains a dash it is split once (`split('-', 1)`) into
integers `a`, `b` and contributes `range(a-1, (b-1)+1)` when
`0 ≤ a-1 < maxNum`, `0 ≤ b-1 < maxNum` and `a-1 ≤ b-1`, nothing
otherwise; a dash-free token read as integer `k` contributes `k-1` when
`0 ≤ k-1 < maxNum`.  `none` models the `ValueError` that makes the whole
parse return `[]`. -/
def parsePart (part0 : List Char) (maxNum : Nat) : Option (List Nat) :=
  match splitFirst '-' (pyStrip part0) with
  | none =>
      match pyInt? (pyStrip part0) with
      | none => none
      | some k =>
          if 0 ≤ k - 1 ∧ k - 1 < (maxNum : Int) then some [(k - 1).toNat]
          else some []
  | some (u, v) =>
      match pyInt? u, pyInt? v with
      | some a, some b =>
          if 0 ≤ a - 1 ∧ a - 1 < (maxNum : Int) ∧ 0 ≤ b - 1 ∧
              b - 1 < (maxNum : Int) ∧ a - 1 ≤ b - 1 then
            some (List.range' (a - 1).toNat ((b - 1).toNat + 1 - (a - 1).toNat))
          else some []
      | _, _ => none

/-- The accumulation loop of `_parse_selection`: parts are processed in
order, each part's indices added to the set `acc` (a duplicate-free list);
the first `ValueError` aborts the whole parse. -/
def parseGo (maxNum : Nat) : List (List Char) → List Nat → Option (List Nat)
  | [], acc => some acc
  | p :: ps, acc =>
      match parsePart p maxNum with
      | none => none
      | some contrib => parseGo maxNum ps (contrib.foldl (fun a i => a.insert i) acc)

/-- Insert into an ascending list, keeping it ascending. -/
def insertAsc (i : Nat) : List Nat → List Nat
  | [] => [i]
  | j :: js => if i ≤ j then i :: j :: js else j :: insertAsc i js

/-- Python `sorted` on a list of distinct naturals. -/
def sortAsc : List Nat → List Nat
  | [] => []
  | i :: is => insertAsc i (sortAsc is)

/-- Function `_parse_selection` (source lines 441-465) on the characters of the
selection string: split on commas, accumulate each part's indices into a
set, return them sorted; a `ValueError` anywhere returns the empty list. -/
def parseSelectionChars (cs : List Char) (maxNum : Nat) : List Nat :=
  match parseGo maxNum (splitOnChar ',' cs) [] with
  | none => []
  | some acc => sortAsc acc

/-- Function `_parse_selection` on a selection string. -/
def parseSelection (selection : String) (maxNum : Nat) : List Nat :=
  parseSelectionChars selection.toList maxNum

/-- A selection token as the specification describes it: a single integer
or a range of two integers. -/
inductive SelToken where
  | single (k : Int)
  | range (a b : Int)
deriving DecidableEq

/-- The syntactic shape of one token: stripped, split once on the first
dash, each piece read as a Python integer. -/
def tokenOfChars? (t0 : List Char) : Option SelToken :=
  match splitFirst '-' (pyStrip t0) with
  | none => (pyInt? (pyStrip t0)).map SelToken.single
  | some (u, v) =>
      match pyInt? u, pyInt? v with
      | some a, some b => some (SelToken.range a b)
      | _, _ => none

/-- The indices a token denotes, written exactly as the specification
states them: a single `k` gives `k-1` when `1 ≤ k ≤ N`; a range `a-b`
gives `a-1 .. b-1` when `1 ≤ a ≤ b ≤ N`; otherwise nothing. -/
def tokenIndices (n : Nat) : SelToken → Finset Nat
  | SelToken.single k =>
      if 1 ≤ k ∧ k ≤ (n : Int) then {(k - 1).toNat} else ∅
  | SelToken.range a b =>
      if 1 ≤ a ∧ a ≤ b ∧ b ≤ (n : Int) then
        Finset.Icc (a - 1).toNat (b - 1).toNat
      else ∅

/-- The selection handling of `_delete_multiple_backups` (source lines
388-412): the raw input is stripped and lowercased; the standalone token
`all` selects every backup (indices `0 .. N-1`); any other text goes
through `_parse_selection`. -/
def selectionIndices (selection : String) (n : Nat) : List Nat :=
  if pyLower (pyStrip selection.toList) = "all".toList then List.range n
  else parseSelectionChars (pyLower (pyStrip selection.toList)) n

/-- A well-formed selection token, as the specification phrases it: a
single positive integer, or a range of two integers. -/
def wellFormedToken (t : List Char) : Prop :=
  (∃ k : Int, 1 ≤ k ∧ tokenOfChars? t = some (SelToken.single k)) ∨
  (∃ a b : Int, tokenOfChars? t = some (SelToken.range a b))

/-- A directory node as `clear_directory` sees it: whether the directory
exists, its regular files, and which subdirectory names it holds
(`glob("*")` entries that are not regular files are left alone). -/
structure DirNode where
  present : Bool
  files : Dir
  subs : String → Bool

/-- A freshly created, empty directory (`mkdir(parents=True)`). -/
def emptyNode : DirNode :=
  { present := true, files := fun _ => none, subs := fun _ => false }

/-- Function `clear_directory` (source lines 127-134): if the directory exists,
delete every regular file directly inside it, leaving subdirectories
untouched; otherwise create it (with parents). -/
def clear_directory (d : DirNode) : DirNode :=
  if d.present then { d with files := fun _ => none } else emptyNode

/-- The whole state the workflows touch: the configured game path (the
value of `config.get('game_path')`), the game directory's files, the
`saves/current` staging directory, and the backup snapshot directories by
name (`none` = no directory of that name under `saves/backups`). -/
structure SysState where
  gamePathCfg : Option String
  game : Dir
  current : DirNode
  backups : String → Option Dir

/-- The `if not game_path` guard (source lines 213-216 and 300-303):
Python treats both a missing key and an empty string as falsy. -/
def gamePathSet (st : SysState) : Bool :=
  match st.gamePathCfg with
  | none => false
  | some p => !(p == "")

/-- An affirmative confirmation: the stripped, lowercased answer is in
`['y', 'yes']`. -/
def pyYes (ans : String) : Bool :=
  pyLower (pyStrip ans.toList) = "y".toList ∨ pyLower (pyStrip ans.toList) = "yes".toList

/-- The outcome of the backup-name prompt loop of `create_backup` (source
lines 230-246): the final name, whether it was timestamp-generated from a
blank input, and whether an affirmative overwrite confirmation was given
for it. -/
structure ResolvedName where
  name : String
  generated : Bool
  confirmed : Bool
deriving DecidableEq

/-- The backup-name prompt loop of `create_backup` (source lines 230-246),
driven by the scripted inputs `(raw name, overwrite answer)`: a blank name
resolves to `backup_<timestamp>` immediately; a name colliding with an
existing snapshot directory is kept only on an affirmative overwrite
answer and re-prompted otherwise; a fresh name is kept immediately.
`none` models running out of scripted inputs (the real loop would keep
prompting). -/
def resolveBackupName (bks : String → Option Dir) (ts : String) :
    List (String × String) → Option ResolvedName
  | [] => none
  | (raw, ans) :: rest =>
      if pyStrip raw.toList = [] then
        some ⟨"backup_" ++ ts, true, false⟩
      else if (bks (String.mk (pyStrip raw.toList))).isSome then
        if pyYes ans then some ⟨String.mk (pyStrip raw.toList), false, true⟩
        else resolveBackupName bks ts rest
      else some ⟨String.mk (pyStrip raw.toList), false, false⟩

/-- Function `create_backup` (source lines 208-257): abort if no game path is
configured; clear `saves/current` and copy the game's save files into it;
abort if none were copied; resolve a backup name; remove an existing
snapshot directory of that name and copy `saves/current` into a fresh
snapshot directory.  `none` models an interaction that never resolves a
name. -/
def create_backup (f1 f2 : FileName → Bool) (inputs : List (String × String))
    (ts : String) (st : SysState) : Option SysState :=
  if gamePathSet st = false then some st
  else if (copyList f1 st.game save_files ((clear_directory st.current).files, 0)).2 = 0 then
    some { st with current := { clear_directory st.current with
      files := (copyList f1 st.game save_files ((clear_directory st.current).files, 0)).1 } }
  else
    match resolveBackupName st.backups ts inputs with
    | none => none
    | some r =>
        some { st with
          current := { clear_directory st.current with
            files := (copyList f1 st.game save_files ((clear_directory st.current).files, 0)).1 },
          backups := fun nm =>
            if nm = r.name then
              some (copyList f2
                (copyList f1 st.game save_files ((clear_directory st.current).files, 0)).1
                save_files (emptyDir, 0)).1
            else st.backups nm }

/-- Whether a snapshot directory holds at least one recognized save file
(the qualification test of `get_backup_list`, source line 169). -/
def hasSaveFiles (d : Dir) : Bool :=
  save_files.any (fun fn => (d fn).isSome)

/-- Function `restore_backup` (source lines 259-314), with the selection loop
modelled by the name `sel` of the chosen catalog entry: abort when no
snapshot of that name qualifies for the catalog, when the confirmation is
not affirmative, or when no game path is configured; otherwise clear
`saves/current`, copy the snapshot into it, and copy `saves/current` onto
the game directory. -/
def restore_backup (f1 f2 : FileName → Bool) (sel : String) (confirm : String)
    (st : SysState) : SysState :=
  match st.backups sel with
  | none => st
  | some bdir =>
      if hasSaveFiles bdir = false then st
      else if pyYes confirm = false then st
      else if gamePathSet st = false then st
      else
        { st with
          current := { clear_directory st.current with
            files := (copyList f1 bdir save_files ((clear_directory st.current).files, 0)).1 },
          game := (copyList f2
            (copyList f1 bdir save_files ((clear_directory st.current).files, 0)).1
            save_files (st.game, 0)).1 }

/-- A state with no configured game path, for the C10 witness. -/
def st0 : SysState :=
  { gamePathCfg := none, game := emptyDir, current := emptyNode,
    backups := fun _ => none }

/-- An old snapshot directory holding a save file and an extra file. -/
def cexSnap : Dir := dirOf [("file0", [0]), ("notes", [5])]

/-- A backups root holding the single snapshot `slot1`, for the C3 witness. -/
def cexBks : String → Option Dir :=
  fun nm => if nm = "slot1" then some cexSnap else none

/-- A game directory with one save file, for the C3 counterexample. -/
def cexGame : Dir := dirOf [("file0", [1])]

/-- A state whose backups root already holds a snapshot named exactly like
the timestamp-generated name `backup_T0`. -/
def cexSt : SysState :=
  { gamePathCfg := some "G", game := cexGame, current := emptyNode,
    backups := fun nm => if nm = "backup_T0" then some cexSnap else none }

/-- A concrete game directory for the C1 witness. -/
def rtGame : Dir := dirOf [("file0", [1, 2]), ("file8", [3])]

/-- A concrete configured state with an empty backups root. -/
def rtSt : SysState :=
  { gamePathCfg := some "G", game := rtGame, current := emptyNode,
    backups := fun _ => none }

/-- A source with one good file and one whose copy fails. -/
def wSrc : Dir := dirOf [("file0", [7]), ("file8", [8])]

/-- A destination holding an unrelated file. -/
def wDst : Dir := dirOf [("file9", [9]), ("extra.txt", [4])]

/-- The oracle that fails exactly on `file8`. -/
def wFail : FileName → Bool := fun fn => fn == "file8"

/-- One entry of the backups root as `get_backup_list` examines it: its
name, whether it is a directory, which file names exist directly inside
it, and its filesystem modification time. -/
structure DirEntry where
  name : String
  isDir : Bool
  files : List String
  mtime : Nat
deriving DecidableEq

/-- The qualification test of `get_backup_list` (source lines 167-170): a
directory entry that holds at least one recognized save file. -/
def qualifiesBackup (e : DirEntry) : Bool :=
  e.isDir && save_files.any (fun fn => e.files.contains fn)

/-- Stable descending insertion by modification time: an element is
placed before the first earlier-or-equal entry, so later list elements
never overtake earlier ones with the same key. -/
def insertByMtime (x : DirEntry) : List DirEntry → List DirEntry
  | [] => [x]
  | y :: ys => if y.mtime ≤ x.mtime then x :: y :: ys else y :: insertByMtime x ys

/-- Python `backups.sort(key=mtime, reverse=True)` (source line 178): a stable
sort, descending by modification time. -/
def sortByMtimeDesc : List DirEntry → List DirEntry
  | [] => []
  | x :: xs => insertByMtime x (sortByMtimeDesc xs)

/-- Function `get_backup_list` (source lines 160-179): an empty list when the
backups root does not exist; otherwise the qualifying entries of the
root's listing, sorted by modification time, most recent first.  The
listing order of `iterdir()` is an input: the filesystem does not fix it. -/
def get_backup_list (rootPresent : Bool) (entries : List DirEntry) : List DirEntry :=
  if rootPresent then sortByMtimeDesc (entries.filter qualifiesBackup) else []

/-- Two qualifying snapshots with identical modification times. -/
def entA : DirEntry := { name := "a", isDir := true, files := ["file0"], mtime := 5 }

/-- A second snapshot, tied with `entA` on modification time. -/
def entB : DirEntry := { name := "b", isDir := true, files := ["file0"], mtime := 5 }

/-- Where the copy loop leaves each file of the destination: a name in the
list that exists in the source and does not fail is overwritten with the
source contents; every other name keeps its previous contents. -/
theorem copyList_fst (f : FileName → Bool) (s : Dir) (fns : List FileName)
    (d : Dir) (c : Nat) (fn : FileName) :
    (copyList f s fns (d, c)).1 fn =
      if fn ∈ fns ∧ (s fn).isSome ∧ f fn = false then s fn else d fn := by
  induction fns generalizing d c with
  | nil => simp [copyList]
  | cons hd tl ih =>
    by_cases hfn : fn = hd
    · subst hfn
      cases hs : s fn with
      | none => simp [copyList, hs, ih]
      | some v =>
        cases hf : f fn with
        | false =>
          simp only [copyList, hs]
          rw [hf, if_neg (by decide), ih]
          by_cases hmem : fn ∈ tl
          · simp [hmem, hs, hf]
          · simp [hmem, hs, hf, updateDir]
        | true =>
          simp only [copyList, hs]
          rw [hf, if_pos rfl, ih]
          simp [hf]
    · cases hs : s hd with
      | none =>
        simp only [copyList, hs]
        rw [ih]
        simp [hfn]
      | some v =>
        cases hf : f hd with
        | false =>
          simp only [copyList, hs]
          rw [hf, if_neg (by decide), ih]
          simp [hfn, updateDir, Ne.symm hfn]
        | true =>
          simp only [copyList, hs]
          rw [hf, if_pos rfl, ih]
          simp [hfn]

/-- The copy loop counts exactly the files that exist in the source and on
which the copy does not fail. -/
theorem copyList_snd (f : FileName → Bool) (s : Dir) (fns : List FileName)
    (d : Dir) (c : Nat) :
    (copyList f s fns (d, c)).2 =
      c + (fns.filter (fun fn => (s fn).isSome && !f fn)).length := by
  induction fns generalizing d c with
  | nil => simp [copyList]
  | cons hd tl ih =>
    cases hs : s hd with
    | none => simp [copyList, hs, ih]
    | some v =>
      cases hf : f hd with
      | false =>
        simp only [copyList, hs]
        rw [hf, if_neg (by decide), ih]
        simp [List.filter, hs, hf]
        omega
      | true =>
        simp only [copyList, hs]
        rw [hf, if_pos rfl, ih]
        simp [List.filter, hs, hf]

theorem insertAsc_perm (i : Nat) (l : List Nat) : (insertAsc i l).Perm (i :: l) := by
  induction l with
  | nil => simp [insertAsc]
  | cons j js ih =>
    by_cases h : i ≤ j
    · simp [insertAsc, h]
    · simp only [insertAsc, if_neg h]
      exact (ih.cons j).trans (List.Perm.swap i j js)

theorem sortAsc_perm (l : List Nat) : (sortAsc l).Perm l := by
  induction l with
  | nil => simp [sortAsc]
  | cons i is ih => exact (insertAsc_perm i (sortAsc is)).trans (ih.cons i)

theorem insertAsc_sorted (i : Nat) (l : List Nat) (h : l.Sorted (· ≤ ·)) :
    (insertAsc i l).Sorted (· ≤ ·) := by
  induction l with
  | nil => simp [insertAsc]
  | cons j js ih =>
    rw [List.sorted_cons] at h
    by_cases hij : i ≤ j
    · rw [insertAsc, if_pos hij, List.sorted_cons]
      refine ⟨?_, List.sorted_cons.mpr h⟩
      intro b hb
      rcases List.mem_cons.mp hb with rfl | hb
      · exact hij
      · exact le_trans hij (h.1 b hb)
    · rw [insertAsc, if_neg hij, List.sorted_cons]
      refine ⟨?_, ih h.2⟩
      intro b hb
      rcases List.mem_cons.mp ((insertAsc_perm i js).mem_iff.mp hb) with rfl | hb2
      · exact le_of_not_le hij
      · exact h.1 b hb2

theorem sortAsc_sorted (l : List Nat) : (sortAsc l).Sorted (· ≤ ·) := by
  induction l with
  | nil => simp [sortAsc]
  | cons i is ih => exact insertAsc_sorted i (sortAsc is) ih

/-- A part raises `ValueError` exactly when it has no token shape. -/
theorem parsePart_none_iff (t : List Char) (n : Nat) :
    parsePart t n = none ↔ tokenOfChars? t = none := by
  unfold parsePart tokenOfChars?
  cases hsp : splitFirst '-' (pyStrip t) with
  | none =>
    dsimp only
    cases hk : pyInt? (pyStrip t) with
    | none => simp
    | some k =>
      dsimp only [Option.map]
      constructor
      · intro hcontr
        split at hcontr <;> exact Option.noConfusion hcontr
      · intro hcontr
        exact Option.noConfusion hcontr
  | some uv =>
    obtain ⟨u, v⟩ := uv
    dsimp only
    cases hu : pyInt? u with
    | none => simp
    | some a =>
      cases hv : pyInt? v with
      | none => simp
      | some b =>
        dsimp only
        constructor
        · intro hcontr
          split at hcontr <;> exact Option.noConfusion hcontr
        · intro hcontr
          exact Option.noConfusion hcontr

/-- Refinement of one token: when a part has a token shape, the indices
the code inserts for it are exactly the indices the specification assigns
to that token, and they are duplicate-free. -/
theorem parsePart_eq_tokenIndices (t : List Char) (n : Nat) (tok : SelToken)
    (h : tokenOfChars? t = some tok) :
    ∃ contrib, parsePart t n = some contrib ∧ contrib.Nodup ∧
      ∀ i, i ∈ contrib ↔ i ∈ tokenIndices n tok := by
  unfold tokenOfChars? at h
  unfold parsePart
  cases hsp : splitFirst '-' (pyStrip t) with
  | none =>
    rw [hsp] at h
    dsimp only at h ⊢
    cases hk : pyInt? (pyStrip t) with
    | none => rw [hk] at h; exact Option.noConfusion h
    | some k =>
      rw [hk] at h
      dsimp only [Option.map] at h
      rw [Option.some.injEq] at h
      subst h
      dsimp only
      by_cases hc : 0 ≤ k - 1 ∧ k - 1 < (n : Int)
      · refine ⟨[(k - 1).toNat], by rw [if_pos hc], by simp, ?_⟩
        intro i
        have hc2 : 1 ≤ k ∧ k ≤ (n : Int) := by omega
        simp [tokenIndices, hc2]
      · refine ⟨[], by rw [if_neg hc], by simp, ?_⟩
        intro i
        have hc2 : ¬(1 ≤ k ∧ k ≤ (n : Int)) := by omega
        simp [tokenIndices, hc2]
  | some uv =>
    obtain ⟨u, v⟩ := uv
    rw [hsp] at h
    dsimp only at h
    dsimp only
    cases hu : pyInt? u with
    | none => rw [hu] at h; exact Option.noConfusion h
    | some a =>
      rw [hu] at h
      cases hv : pyInt? v with
      | none => rw [hv] at h; exact Option.noConfusion h
      | some b =>
        rw [hv] at h
        dsimp only at h ⊢
        rw [Option.some.injEq] at h
        subst h
        by_cases hc : 0 ≤ a - 1 ∧ a - 1 < (n : Int) ∧ 0 ≤ b - 1 ∧
            b - 1 < (n : Int) ∧ a - 1 ≤ b - 1
        · refine ⟨_, by rw [if_pos hc], by exact List.nodup_range' _ _, ?_⟩
          intro i
          have hc2 : 1 ≤ a ∧ a ≤ b ∧ b ≤ (n : Int) := by omega
          simp only [tokenIndices, if_pos hc2, Finset.mem_Icc, List.mem_range'_1]
          omega
        · refine ⟨[], by rw [if_neg hc], by simp, ?_⟩
          intro i
          have hc2 : ¬(1 ≤ a ∧ a ≤ b ∧ b ≤ (n : Int)) := by omega
          simp [tokenIndices, hc2]

/-- The indices of a token are always inside `[0, N)`. -/
theorem tokenIndices_lt (n : Nat) (tok : SelToken) (i : Nat)
    (h : i ∈ tokenIndices n tok) : i < n := by
  cases tok with
  | single k =>
    by_cases hc : 1 ≤ k ∧ k ≤ (n : Int)
    · simp only [tokenIndices, if_pos hc, Finset.mem_singleton] at h
      omega
    · simp [tokenIndices, hc] at h
  | range a b =>
    by_cases hc : 1 ≤ a ∧ a ≤ b ∧ b ≤ (n : Int)
    · simp only [tokenIndices, if_pos hc, Finset.mem_Icc] at h
      omega
    · simp [tokenIndices, hc] at h

theorem foldl_insert_mem (l acc : List Nat) (i : Nat) :
    i ∈ l.foldl (fun a j => a.insert j) acc ↔ i ∈ acc ∨ i ∈ l := by
  induction l generalizing acc with
  | nil => simp
  | cons j js ih =>
    simp only [List.foldl_cons, ih, List.mem_insert_iff, List.mem_cons]
    tauto

theorem foldl_insert_nodup (l acc : List Nat) (h : acc.Nodup) :
    (l.foldl (fun a j => a.insert j) acc).Nodup := by
  induction l generalizing acc with
  | nil => exact h
  | cons j js ih => exact ih (acc.insert j) h.insert

/-- A `ValueError` on any part makes `_parse_selection` fail as a whole. -/
theorem parseGo_none (n : Nat) (parts : List (List Char)) (acc : List Nat)
    (h : ∃ p ∈ parts, parsePart p n = none) : parseGo n parts acc = none := by
  induction parts generalizing acc with
  | nil => obtain ⟨p, hp, _⟩ := h; exact absurd hp (List.not_mem_nil p)
  | cons p ps ih =>
    obtain ⟨q, hq, hqn⟩ := h
    cases hp : parsePart p n with
    | none => simp [parseGo, hp]
    | some contrib =>
      rcases List.mem_cons.mp hq with rfl | hq2
      · rw [hp] at hqn; exact Option.noConfusion hqn
      · simp only [parseGo, hp]
        exact ih _ ⟨q, hq2, hqn⟩

/-- When every part parses, the accumulated index set of
`_parse_selection` is duplicate-free and holds exactly the indices
contributed by the parts. -/
theorem parseGo_some (n : Nat) (parts : List (List Char)) (acc : List Nat)
    (hacc : acc.Nodup) (h : ∀ p ∈ parts, parsePart p n ≠ none) :
    ∃ res, parseGo n parts acc = some res ∧ res.Nodup ∧
      ∀ i, i ∈ res ↔
        (i ∈ acc ∨ ∃ p ∈ parts, ∃ contrib, parsePart p n = some contrib ∧ i ∈ contrib) := by
  induction parts generalizing acc with
  | nil =>
    refine ⟨acc, rfl, hacc, ?_⟩
    simp
  | cons p ps ih =>
    cases hp : parsePart p n with
    | none => exact absurd hp (h p (List.mem_cons_self p ps))
    | some contrib =>
      obtain ⟨res, hres, hnd, hmem⟩ :=
        ih (contrib.foldl (fun a i => a.insert i) acc)
          (foldl_insert_nodup contrib acc hacc)
          (fun q hq => h q (List.mem_cons_of_mem p hq))
      refine ⟨res, by simp only [parseGo, hp]; exact hres, hnd, ?_⟩
      intro i
      rw [hmem i, foldl_insert_mem]
      constructor
      · rintro ((hiacc | hic) | ⟨q, hq, c, hc, hic⟩)
        · exact Or.inl hiacc
        · exact Or.inr ⟨p, List.mem_cons_self p ps, contrib, hp, hic⟩
        · exact Or.inr ⟨q, List.mem_cons_of_mem p hq, c, hc, hic⟩
      · rintro (hiacc | ⟨q, hq, c, hc, hic⟩)
        · exact Or.inl (Or.inl hiacc)
        · rcases List.mem_cons.mp hq with rfl | hq2
          · rw [hp] at hc
            injection hc with hc2
            subst hc2
            exact Or.inl (Or.inr hic)
          · exact Or.inr ⟨q, hq2, c, hc, hic⟩

/-- Claim C4: on a selection string all of whose comma-separated tokens
are well formed (single positive integers or integer ranges), the parse
does not fail and returns a strictly sorted (hence duplicate-free) list of
zero-based indices in `[0, N)`, holding exactly the indices the
specification assigns to each token: `k` gives `k-1` only if `1 ≤ k ≤ N`,
`a-b` gives `a-1 .. b-1` only if `1 ≤ a ≤ b ≤ N`, and reversed or
out-of-bounds tokens contribute nothing without failing the parse. -/
theorem parse_selection_wellformed (s : String) (n : Nat)
    (h : ∀ t ∈ splitOnChar ',' s.toList, wellFormedToken t) :
    parseGo n (splitOnChar ',' s.toList) [] ≠ none ∧
    (∀ i, i ∈ parseSelection s n ↔
      ∃ t ∈ splitOnChar ',' s.toList, ∃ tok,
        tokenOfChars? t = some tok ∧ i ∈ tokenIndices n tok) ∧
    (parseSelection s n).Sorted (· < ·) ∧
    (∀ i ∈ parseSelection s n, i < n) := by
  have hps : ∀ p ∈ splitOnChar ',' s.toList, parsePart p n ≠ none := by
    intro p hp hpn
    rw [parsePart_none_iff] at hpn
    rcases h p hp with ⟨k, _, htok⟩ | ⟨a, b, htok⟩ <;>
      (rw [hpn] at htok; exact Option.noConfusion htok)
  obtain ⟨res, hres, hnd, hmem⟩ := parseGo_some n (splitOnChar ',' s.toList) [] (by simp) hps
  have hsel : parseSelection s n = sortAsc res := by
    unfold parseSelection parseSelectionChars
    rw [hres]
  have hiff : ∀ i, i ∈ parseSelection s n ↔
      ∃ t ∈ splitOnChar ',' s.toList, ∃ tok,
        tokenOfChars? t = some tok ∧ i ∈ tokenIndices n tok := by
    intro i
    rw [hsel, (sortAsc_perm res).mem_iff, hmem i]
    simp only [List.not_mem_nil, false_or]
    constructor
    · rintro ⟨p, hp, c, hc, hic⟩
      have htok : ∃ tok, tokenOfChars? p = some tok := by
        rcases h p hp with ⟨k, _, htok⟩ | ⟨a, b, htok⟩
        · exact ⟨SelToken.single k, htok⟩
        · exact ⟨SelToken.range a b, htok⟩
      obtain ⟨tok, htok⟩ := htok
      obtain ⟨contrib, hc2, _, hic2⟩ := parsePart_eq_tokenIndices p n tok htok
      rw [hc] at hc2
      injection hc2 with hc3
      subst hc3
      exact ⟨p, hp, tok, htok, (hic2 i).mp hic⟩
    · rintro ⟨t, ht, tok, htok, hitok⟩
      obtain ⟨contrib, hc2, _, hic2⟩ := parsePart_eq_tokenIndices t n tok htok
      exact ⟨t, ht, contrib, hc2, (hic2 i).mpr hitok⟩
  refine ⟨by rw [hres]; exact Option.noConfusion, hiff, ?_, ?_⟩
  · rw [hsel]
    exact (sortAsc_sorted res).lt_of_le ((sortAsc_perm res).nodup_iff.mpr hnd)
  · intro i hi
    obtain ⟨t, _, tok, _, hitok⟩ := (hiff i).mp hi
    exact tokenIndices_lt n tok i hitok

/-- Witness for C4 at the specification's own example `"1,3,5"`, `N = 5`. -/
theorem parse_selection_wellformed_witness :
    (parseSelection "1,3,5" 5).Sorted (· < ·) ∧
    (∀ i ∈ parseSelection "1,3,5" 5, i < 5) ∧
    parseSelection "1,3,5" 5 = [0, 2, 4] := by
  have hwf : ∀ t ∈ splitOnChar ',' ("1,3,5".toList), wellFormedToken t := by
    have hsplit : splitOnChar ',' ("1,3,5".toList) = [['1'], ['3'], ['5']] := by decide
    rw [hsplit]
    intro t ht
    rcases List.mem_cons.mp ht with rfl | ht
    · exact Or.inl ⟨1, by decide, by decide⟩
    rcases List.mem_cons.mp ht with rfl | ht
    · exact Or.inl ⟨3, by decide, by decide⟩
    rcases List.mem_cons.mp ht with rfl | ht
    · exact Or.inl ⟨5, by decide, by decide⟩
    exact absurd ht (List.not_mem_nil t)
  have h := parse_selection_wellformed "1,3,5" 5 hwf
  exact ⟨h.2.2.1, h.2.2.2, by decide⟩

/-- Claim C5: a malformed token anywhere in the selection string makes the
whole parse fail and return the empty result, whatever the catalog size
and however many other tokens are valid. -/
theorem parse_selection_malformed_empty (s : String) (n : Nat)
    (h : ∃ t ∈ splitOnChar ',' s.toList, tokenOfChars? t = none) :
    parseSelection s n = [] := by
  obtain ⟨t, ht, htok⟩ := h
  have hpn : parsePart t n = none := (parsePart_none_iff t n).mpr htok
  unfold parseSelection parseSelectionChars
  rw [parseGo_none n _ [] ⟨t, ht, hpn⟩]

/-- Witness for C5: `"1,abc,3"` has the valid tokens `1` and `3` around
the malformed `abc`, and still parses to the empty result. -/
theorem parse_selection_malformed_empty_witness :
    parseSelection "1,abc,3" 5 = [] ∧ tokenOfChars? ("abc".toList) = none :=
  ⟨parse_selection_malformed_empty "1,abc,3" 5 ⟨"abc".toList, by decide, by decide⟩,
    by decide⟩

/-- Claim C2: a selection string that strips and lowercases to the
standalone token `all` selects exactly the full index set `0 .. N-1`,
for every catalog size `N`. -/
theorem selection_all_indices (s : String) (n : Nat)
    (h : pyLower (pyStrip s.toList) = "all".toList) :
    selectionIndices s n = List.range n ∧
    ∀ i, i ∈ selectionIndices s n ↔ i < n := by
  unfold selectionIndices
  rw [if_pos h]
  exact ⟨rfl, fun i => List.mem_range⟩

/-- Witness for C2 at the case-insensitive input `" All "` with `N = 3`. -/
theorem selection_all_indices_witness :
    selectionIndices " All " 3 = [0, 1, 2] :=
  (selection_all_indices " All " 3 (by decide)).1.trans (by decide)

theorem clear_directory_files (d : DirNode) (fn : FileName) :
    (clear_directory d).files fn = none := by
  unfold clear_directory emptyNode
  split <;> rfl

/-- Claim C8: `clear_directory` leaves the target present and with no
regular files, is idempotent, and touches no subdirectory of an existing
target (a freshly created target has none). -/
theorem clear_directory_idempotent (d : DirNode) :
    (clear_directory d).present = true ∧
    (∀ fn, (clear_directory d).files fn = none) ∧
    clear_directory (clear_directory d) = clear_directory d ∧
    (clear_directory (clear_directory d)).present = true ∧
    (∀ fn, (clear_directory (clear_directory d)).files fn = none) ∧
    (clear_directory d).subs = (if d.present then d.subs else fun _ => false) := by
  by_cases hp : d.present <;>
    simp [clear_directory, emptyNode, hp]

/-- Claim C10: with no configured game path, both `create_backup` and
`restore_backup` return with the whole state unchanged: the staging
directory is not cleared, nothing is copied, game path and backups root
are untouched. -/
theorem missing_game_path_aborts (f1 f2 : FileName → Bool)
    (inputs : List (String × String)) (ts sel confirm : String) (st : SysState)
    (h : gamePathSet st = false) :
    create_backup f1 f2 inputs ts st = some st ∧
    restore_backup f1 f2 sel confirm st = st := by
  constructor
  · unfold create_backup
    rw [if_pos h]
  · unfold restore_backup
    cases hb : st.backups sel with
    | none => rfl
    | some bdir =>
      dsimp only
      by_cases h1 : hasSaveFiles bdir = false
      · rw [if_pos h1]
      · rw [if_neg h1]
        by_cases h2 : pyYes confirm = false
        · rw [if_pos h2]
        · rw [if_neg h2, if_pos h]

/-- Witness for C10 at a concrete unconfigured state. -/
theorem missing_game_path_aborts_witness :
    create_backup noFail noFail [] "T" st0 = some st0 ∧
    restore_backup noFail noFail "slot1" "y" st0 = st0 :=
  missing_game_path_aborts noFail noFail [] "T" "slot1" "y" st0 rfl

/-- Claim C3 (amended): in the name-resolution loop of `create_backup`, a
user-supplied (non-generated) name that collides with an existing snapshot
directory is only ever resolved after an affirmative overwrite
confirmation; `create_backup` deletes the old snapshot only after the
name is resolved.  (Timestamp-generated names skip this check: see the
counterexample.) -/
theorem resolve_user_overwrite_confirmed (bks : String → Option Dir) (ts : String)
    (inputs : List (String × String)) (r : ResolvedName)
    (hres : resolveBackupName bks ts inputs = some r)
    (hgen : r.generated = false) (hcol : (bks r.name).isSome = true) :
    r.confirmed = true := by
  induction inputs with
  | nil => exact Option.noConfusion hres
  | cons pr rest ih =>
    obtain ⟨raw, ans⟩ := pr
    unfold resolveBackupName at hres
    by_cases hb : pyStrip raw.toList = []
    · rw [if_pos hb] at hres
      injection hres with hres2
      subst hres2
      simp at hgen
    · rw [if_neg hb] at hres
      by_cases hc : (bks (String.mk (pyStrip raw.toList))).isSome = true
      · rw [if_pos hc] at hres
        by_cases hy : pyYes ans = true
        · rw [if_pos hy] at hres
          injection hres with hres2
          subst hres2
          rfl
        · rw [if_neg hy] at hres
          exact ih hres
      · rw [if_neg hc] at hres
        injection hres with hres2
        subst hres2
        exact absurd hcol hc

/-- Witness for C3 (amended): resolving the colliding user-supplied name
`slot1` with answer `y` yields a confirmed resolution. -/
theorem resolve_user_overwrite_confirmed_witness :
    resolveBackupName cexBks "T" [("slot1", "y")] = some ⟨"slot1", false, true⟩ ∧
    (ResolvedName.mk "slot1" false true).confirmed = true := by
  have h : resolveBackupName cexBks "T" [("slot1", "y")] =
      some ⟨"slot1", false, true⟩ := by decide
  exact ⟨h, resolve_user_overwrite_confirmed cexBks "T" [("slot1", "y")]
    ⟨"slot1", false, true⟩ h rfl (by decide)⟩

/-- Counterexample to Claim C3 as stated: on a blank name input the
resolved name is timestamp-generated (`backup_T0`), collides with the
existing snapshot, and no overwrite confirmation is asked
(`confirmed = false`), yet `create_backup` deletes the old snapshot: its
file `notes` is gone and `file0` now holds the game's bytes `[1]`, not
the old `[0]`. -/
theorem create_overwrite_cex :
    resolveBackupName cexSt.backups "T0" [("", "")] =
      some ⟨"backup_T0", true, false⟩ ∧
    (cexSt.backups "backup_T0").isSome = true ∧
    ((create_backup noFail noFail [("", "")] "T0" cexSt).map
        (fun st1 => (st1.backups "backup_T0").map
          (fun d => (d "notes", d "file0"))))
      = some (some (none, some [1])) ∧
    (cexSnap "notes", cexSnap "file0") = (some [5], some [0]) := by
  refine ⟨by decide, by decide, by decide, by decide⟩

/-- On the success path (qualifying snapshot, affirmative confirmation,
configured game path) `restore_backup` rewrites the game directory with
the two-step copy snapshot → staging → game. -/
theorem restore_backup_game (f1 f2 : FileName → Bool) (sel confirm : String)
    (st : SysState) (bdir : Dir) (hb : st.backups sel = some bdir)
    (hq : hasSaveFiles bdir = true) (hy : pyYes confirm = true)
    (hgp : gamePathSet st = true) :
    (restore_backup f1 f2 sel confirm st).game =
      (copyList f2
        (copyList f1 bdir save_files ((clear_directory st.current).files, 0)).1
        save_files (st.game, 0)).1 := by
  unfold restore_backup
  rw [hb]
  dsimp only
  rw [if_neg (by simp [hq]), if_neg (by simp [hy]), if_neg (by simp [hgp])]

theorem gamePathSet_update (st : SysState) (cur : DirNode)
    (bks : String → Option Dir) :
    gamePathSet { st with current := cur, backups := bks } = gamePathSet st := rfl

/-- Claim C1: creating a backup (no I/O failures, name resolved to `r`)
and then restoring it reproduces in the game directory, byte for byte,
every save file that existed there at creation time. -/
theorem create_then_restore_roundtrip (st : SysState)
    (inputs : List (String × String)) (ts : String) (r : ResolvedName)
    (hg : gamePathSet st = true)
    (hres : resolveBackupName st.backups ts inputs = some r)
    (fn : FileName) (hfn : fn ∈ save_files) (v : Content)
    (hv : st.game fn = some v) :
    ∃ st1, create_backup noFail noFail inputs ts st = some st1 ∧
      (restore_backup noFail noFail r.name "y" st1).game fn = some v := by
  have hcurf : (copyList noFail st.game save_files
      ((clear_directory st.current).files, 0)).1 fn = some v := by
    rw [copyList_fst, if_pos ⟨hfn, by simp [hv], rfl⟩, hv]
  have hcnt : (copyList noFail st.game save_files
      ((clear_directory st.current).files, 0)).2 ≠ 0 := by
    rw [copyList_snd]
    have hmemf : fn ∈ save_files.filter (fun x => (st.game x).isSome && !noFail x) :=
      List.mem_filter.mpr ⟨hfn, by simp [hv, noFail]⟩
    have := List.length_pos.mpr (List.ne_nil_of_mem hmemf)
    omega
  have hbf : (copyList noFail
      (copyList noFail st.game save_files ((clear_directory st.current).files, 0)).1
      save_files (emptyDir, 0)).1 fn = some v := by
    rw [copyList_fst, if_pos ⟨hfn, by simp [hcurf], rfl⟩, hcurf]
  have hhs : hasSaveFiles (copyList noFail
      (copyList noFail st.game save_files ((clear_directory st.current).files, 0)).1
      save_files (emptyDir, 0)).1 = true := by
    unfold hasSaveFiles
    rw [List.any_eq_true]
    exact ⟨fn, hfn, by simp [hbf]⟩
  unfold create_backup
  rw [if_neg (by simp [hg]), if_neg hcnt, hres]
  refine ⟨_, rfl, ?_⟩
  unfold restore_backup
  dsimp only
  rw [if_pos rfl]
  dsimp only
  rw [if_neg (by simp [hhs]), if_neg (by decide), gamePathSet_update,
    if_neg (by simp [hg])]
  dsimp only
  rw [copyList_fst, copyList_fst]
  simp [hfn, hbf, noFail, clear_directory_files]

/-- Witness for C1: create `slot1`, restore it, and `file0` comes back
byte for byte. -/
theorem create_then_restore_roundtrip_witness :
    ∃ st1, create_backup noFail noFail [("slot1", "")] "TS" rtSt = some st1 ∧
      (restore_backup noFail noFail
        (ResolvedName.mk "slot1" false false).name "y" st1).game "file0" =
          some [1, 2] :=
  create_then_restore_roundtrip rtSt [("slot1", "")] "TS"
    ⟨"slot1", false, false⟩ (by decide) (by decide) "file0" (by decide)
    [1, 2] (by decide)

/-- Claim C6: `copy_save_files` returns exactly the number of save files
it successfully copied; a file missing from the source is skipped without
touching the destination or the count; a failing copy leaves the other
files' copies unaffected. -/
theorem copy_save_files_semantics (f : FileName → Bool) (src dst : Dir) :
    (copy_save_files f src dst).2 =
      (save_files.filter (fun fn => (src fn).isSome && !f fn)).length ∧
    (∀ fn ∈ save_files, src fn = none → (copy_save_files f src dst).1 fn = dst fn) ∧
    (∀ fn ∈ save_files, ∀ v, src fn = some v → f fn = false →
      (copy_save_files f src dst).1 fn = some v) := by
  refine ⟨?_, ?_, ?_⟩
  · unfold copy_save_files
    rw [copyList_snd, Nat.zero_add]
  · intro fn _ hnone
    unfold copy_save_files
    rw [copyList_fst]
    simp [hnone]
  · intro fn hfn v hsome hf
    unfold copy_save_files
    rw [copyList_fst, if_pos ⟨hfn, by simp [hsome], hf⟩, hsome]

/-- Witness for C6: `file8` fails, `file0` is still copied, missing
`file9` leaves the destination alone, and the count is 1. -/
theorem copy_save_files_semantics_witness :
    (copy_save_files wFail wSrc wDst).2 = 1 ∧
    (copy_save_files wFail wSrc wDst).1 "file9" = wDst "file9" ∧
    (copy_save_files wFail wSrc wDst).1 "file0" = some [7] := by
  have h := copy_save_files_semantics wFail wSrc wDst
  exact ⟨h.1.trans (by decide), h.2.1 "file9" (by decide) (by decide),
    h.2.2 "file0" (by decide) [7] (by decide) (by decide)⟩

/-- Claim C7: the copier only ever writes file names of the save-file
set: any other name keeps its destination contents under a direct copy,
`create_backup` never writes the game directory at all, and
`restore_backup` leaves every non-save-file name of the game directory
unchanged. -/
theorem copy_save_files_frame (f1 f2 : FileName → Bool) (fn : FileName)
    (hfn : fn ∉ save_files) :
    (∀ src dst, (copy_save_files f1 src dst).1 fn = dst fn) ∧
    (∀ inputs ts st st1, create_backup f1 f2 inputs ts st = some st1 →
      st1.game = st.game) ∧
    (∀ sel confirm st,
      (restore_backup f1 f2 sel confirm st).game fn = st.game fn) := by
  have hcopy : ∀ (f : FileName → Bool) (src dst : Dir),
      (copyList f src save_files (dst, 0)).1 fn = dst fn := by
    intro f src dst
    rw [copyList_fst]
    simp [hfn]
  refine ⟨fun src dst => hcopy f1 src dst, ?_, ?_⟩
  · intro inputs ts st st1 h
    unfold create_backup at h
    by_cases hgp : gamePathSet st = false
    · rw [if_pos hgp] at h
      injection h with h2
      subst h2
      rfl
    · rw [if_neg hgp] at h
      by_cases hcnt : (copyList f1 st.game save_files
          ((clear_directory st.current).files, 0)).2 = 0
      · rw [if_pos hcnt] at h
        injection h with h2
        subst h2
        rfl
      · rw [if_neg hcnt] at h
        cases hres : resolveBackupName st.backups ts inputs with
        | none => rw [hres] at h; exact Option.noConfusion h
        | some r =>
          rw [hres] at h
          injection h with h2
          subst h2
          rfl
  · intro sel confirm st
    unfold restore_backup
    cases hb : st.backups sel with
    | none => rfl
    | some bdir =>
      dsimp only
      by_cases h1 : hasSaveFiles bdir = false
      · rw [if_pos h1]
      · rw [if_neg h1]
        by_cases h2 : pyYes confirm = false
        · rw [if_pos h2]
        · rw [if_neg h2]
          by_cases h3 : gamePathSet st = false
          · rw [if_pos h3]
          · rw [if_neg h3]
            dsimp only
            exact hcopy f2 _ st.game

/-- Witness for C7 at the non-save file name `extra.txt`. -/
theorem copy_save_files_frame_witness :
    (copy_save_files noFail wSrc wDst).1 "extra.txt" = wDst "extra.txt" ∧
    (restore_backup noFail noFail "slot1" "y" rtSt).game "extra.txt" =
      rtSt.game "extra.txt" :=
  ⟨(copy_save_files_frame noFail noFail "extra.txt" (by decide)).1 wSrc wDst,
    (copy_save_files_frame noFail noFail "extra.txt" (by decide)).2.2 "slot1" "y" rtSt⟩

theorem insertByMtime_perm (x : DirEntry) (l : List DirEntry) :
    (insertByMtime x l).Perm (x :: l) := by
  induction l with
  | nil => simp [insertByMtime]
  | cons y ys ih =>
    by_cases h : y.mtime ≤ x.mtime
    · simp [insertByMtime, h]
    · simp only [insertByMtime, if_neg h]
      exact (ih.cons y).trans (List.Perm.swap x y ys)

theorem sortByMtimeDesc_perm (l : List DirEntry) : (sortByMtimeDesc l).Perm l := by
  induction l with
  | nil => simp [sortByMtimeDesc]
  | cons x xs ih => exact (insertByMtime_perm x (sortByMtimeDesc xs)).trans (ih.cons x)

theorem insertByMtime_sorted (x : DirEntry) (l : List DirEntry)
    (h : l.Sorted (fun a b => b.mtime ≤ a.mtime)) :
    (insertByMtime x l).Sorted (fun a b => b.mtime ≤ a.mtime) := by
  induction l with
  | nil => simp [insertByMtime]
  | cons y ys ih =>
    rw [List.sorted_cons] at h
    by_cases hxy : y.mtime ≤ x.mtime
    · rw [insertByMtime, if_pos hxy, List.sorted_cons]
      refine ⟨?_, List.sorted_cons.mpr h⟩
      intro b hb
      rcases List.mem_cons.mp hb with rfl | hb2
      · exact hxy
      · exact le_trans (h.1 b hb2) hxy
    · rw [insertByMtime, if_neg hxy, List.sorted_cons]
      refine ⟨?_, ih h.2⟩
      intro b hb
      rcases List.mem_cons.mp ((insertByMtime_perm x ys).mem_iff.mp hb) with rfl | hb2
      · exact le_of_not_le hxy
      · exact h.1 b hb2

theorem sortByMtimeDesc_sorted (l : List DirEntry) :
    (sortByMtimeDesc l).Sorted (fun a b => b.mtime ≤ a.mtime) := by
  induction l with
  | nil => simp [sortByMtimeDesc]
  | cons x xs ih => exact insertByMtime_sorted x (sortByMtimeDesc xs) ih

/-- Claim C9 (amended): the catalog of an existing backups root holds
exactly the listed entries that are directories with at least one
recognized save file (never one with zero recognized files), sorted by
modification time descending; entries with equal modification times keep
the order in which the filesystem enumerated them, which the state of the
backups root does not determine (see the counterexample).  A missing root
yields the empty catalog. -/
theorem get_backup_list_sorted_filter (entries : List DirEntry) :
    (get_backup_list true entries).Perm (entries.filter qualifiesBackup) ∧
    (get_backup_list true entries).Sorted (fun a b => b.mtime ≤ a.mtime) ∧
    (∀ e ∈ get_backup_list true entries, qualifiesBackup e = true) ∧
    get_backup_list false entries = [] := by
  refine ⟨?_, ?_, ?_, rfl⟩
  · unfold get_backup_list
    rw [if_pos rfl]
    exact sortByMtimeDesc_perm _
  · unfold get_backup_list
    rw [if_pos rfl]
    exact sortByMtimeDesc_sorted _
  · intro e he
    unfold get_backup_list at he
    rw [if_pos rfl] at he
    exact (List.mem_filter.mp ((sortByMtimeDesc_perm _).subset he)).2

/-- Counterexample to Claim C9 as stated: the same backups-root state,
enumerated in two different orders (both permutations of one another),
yields two different catalogs, so ties are not broken deterministically
by the state of the backups root. -/
theorem get_backup_list_tie_cex :
    List.Perm [entA, entB] [entB, entA] ∧
    get_backup_list true [entA, entB] ≠ get_backup_list true [entB, entA] := by
  exact ⟨by decide, by decide⟩

